import Mathlib

/-!
Verification of the VotingAid DB-manager ingestion pipeline
(`populate_database.py`): shallow embedding of the data model and the
operations of `DatabaseManager`, followed by theorems about the spec's
claims.

Modelling conventions:
* Python values appearing in metadata dictionaries are embedded as `Val`
  (`None`, `str`, `int`); Python `f"..."` interpolation is `Val.pyStr`,
  which renders `None` as the text `"None"` exactly as Python does.
* Python `dict`s are association lists with first-match lookup; key
  assignment updates in place or appends at the end, as insertion-ordered
  Python dicts do.
* File reads are embedded as a `FileLoad` value: the file is absent,
  present but unparseable, or present with a parsed value.  Raising an
  exception is `Except.error`.
-/

set_option autoImplicit false

namespace VotingAidDB

/-- Embedded Python scalar value as it occurs in metadata dictionaries. -/
inductive Val where
  | vNone
  | vStr (s : String)
  | vInt (n : Int)
  deriving DecidableEq

/-- Python `str()` / f-string rendering of a value: `None` renders as the
text `"None"`, strings as themselves, ints in decimal. -/
def Val.pyStr : Val → String
  | Val.vNone => "None"
  | Val.vStr s => s
  | Val.vInt n => toString n

/-- A Python dict with string keys, embedded as an insertion-ordered
association list with first-match lookup. -/
abbrev Metadata := List (String × Val)

/-- First-match association-list lookup (Python `d[k]` / `d.get(k)`). -/
def dlookup {α : Type} (k : String) : List (String × α) → Option α
  | [] => none
  | kv :: rest => if kv.1 = k then some kv.2 else dlookup k rest

/-- Python `metadata.get(k, None)`: lookup with `None` default. -/
def dictGet (md : Metadata) (k : String) : Val :=
  (dlookup k md).getD Val.vNone

/-- Python `d[k] = v` on an insertion-ordered dict: update the existing
binding in place, or append a new one at the end. -/
def dictSet (md : Metadata) (k : String) (v : Val) : Metadata :=
  if (dlookup k md).isSome then
    md.map (fun kv => if kv.1 = k then (k, v) else kv)
  else
    md ++ [(k, v)]

/-- Python `d.update(other)`: assign each binding of `other` in order. -/
def dictUpdate (md other : Metadata) : Metadata :=
  other.foldl (fun acc kv => dictSet acc kv.1 kv.2) md

/-- Python `key in predefined_ids` combined with `predefined_ids[key]`:
the predefined-ids table is a YAML mapping with string keys, so a
non-string lookup value is never a member. -/
def pidLookup (pids : List (String × String)) (v : Val) : Option String :=
  match v with
  | Val.vStr s => dlookup s pids
  | _ => none

/-- The chunk-id string computed by `DatabaseManager.calculate_chunk_id`
(lines 157-166): first the predefined id pinned to `doc_name`, else the
one pinned to `url`, else the pipe-delimited f-string composite
`f"{chunk_number}|{url}|{source}"`. -/
def chunk_id_str (pids : List (String × String)) (md : Metadata) : String :=
  match pidLookup pids (dictGet md "doc_name") with
  | some cid => cid
  | none =>
    match pidLookup pids (dictGet md "url") with
    | some cid => cid
    | none =>
      (dictGet md "chunk_number").pyStr ++ "|" ++ (dictGet md "url").pyStr
        ++ "|" ++ (dictGet md "doc_name").pyStr

/-- `DatabaseManager.calculate_chunk_id`: computes the chunk id and stores
it under the `"id"` key of the metadata dict (line 167). -/
def calculate_chunk_id (pids : List (String × String)) (md : Metadata) : Metadata :=
  dictSet md "id" (Val.vStr (chunk_id_str pids md))

/-- `DatabaseManager.clean_metadata` (line 233-234): drop every
`None`-valued binding, keep the rest unchanged. -/
def clean_metadata (md : Metadata) : Metadata :=
  md.filter (fun kv => kv.2 ≠ Val.vNone)

/-! ### Association-list lemmas -/

theorem dlookup_append_right {α : Type} (k : String) (l1 l2 : List (String × α))
    (h : dlookup k l1 = none) : dlookup k (l1 ++ l2) = dlookup k l2 := by
  induction l1 with
  | nil => simp
  | cons kv rest ih =>
    by_cases hk : kv.1 = k
    · simp [dlookup, hk] at h
    · simp only [dlookup, hk, if_neg hk, List.cons_append] at h ⊢
      exact ih h

theorem dlookup_dictSet (md : Metadata) (k : String) (v : Val) :
    dlookup k (dictSet md k v) = some v := by
  unfold dictSet
  by_cases h : (dlookup k md).isSome
  · simp only [h, if_true]
    induction md with
    | nil => simp [dlookup] at h
    | cons kv rest ih =>
      by_cases hk : kv.1 = k
      · simp [dlookup, hk]
      · simp only [dlookup, hk, if_neg hk, Option.isSome] at h
        simp only [List.map_cons, if_neg hk]
        have := ih h
        simpa [dlookup, hk] using this
  · have hnone : dlookup k md = none := Option.not_isSome_iff_eq_none.mp h
    rw [hnone]
    simp only [Option.isSome_none, Bool.false_eq_true, if_false]
    rw [dlookup_append_right k md [(k, v)] hnone]
    simp [dlookup]

theorem dlookup_clean_of_ne_none (md : Metadata) (k : String) (v : Val)
    (hv : v ≠ Val.vNone) (h : dlookup k md = some v) :
    dlookup k (clean_metadata md) = some v := by
  induction md with
  | nil => simp [dlookup] at h
  | cons kv rest ih =>
    by_cases hk : kv.1 = k
    · simp only [dlookup, hk, if_true] at h
      cases h
      have : kv.2 ≠ Val.vNone := by
        intro hc
        exact hv (by rw [← hc])
      cases kv with
      | mk k1 v1 =>
        simp only at hk this
        subst hk
        simp_all [clean_metadata, dlookup]
    · simp only [dlookup, if_neg hk] at h
      by_cases hn : kv.2 = Val.vNone
      · simpa [clean_metadata, hn] using ih h
      · have hstep : clean_metadata (kv :: rest) = kv :: clean_metadata rest := by
          simp [clean_metadata, hn]
        rw [hstep]
        simp only [dlookup, if_neg hk]
        exact ih h

theorem dlookup_calculate_chunk_id (pids : List (String × String)) (md : Metadata) :
    dlookup "id" (calculate_chunk_id pids md) =
      some (Val.vStr (chunk_id_str pids md)) :=
  dlookup_dictSet md "id" (Val.vStr (chunk_id_str pids md))

/-! ### String helpers (embedding Python string operations) -/

/-- Python `haystack.startswith(needle)` on character lists: does the
second list start with the first? -/
def leadMatch : List Char → List Char → Bool
  | [], _ => true
  | _ :: _, [] => false
  | a :: as, b :: bs => (a = b) && leadMatch as bs

/-- Does the first list occur as a contiguous sublist of the second?
(Python `needle in haystack` on strings.) -/
def hasSubList (needle : List Char) : List Char → Bool
  | [] => leadMatch needle []
  | b :: bs => leadMatch needle (b :: bs) || hasSubList needle bs

/-- Python `s.startswith(pre)`. -/
def startsWithStr (s pre : String) : Bool :=
  leadMatch pre.toList s.toList

/-- Python `needle in haystack` substring test. -/
def strContainsSub (hay needle : String) : Bool :=
  hasSubList needle.toList hay.toList

/-- Python `s.split('\n')` on character lists: always at least one
(possibly empty) piece, separators dropped. -/
def splitOnNl : List Char → List (List Char)
  | [] => [[]]
  | c :: cs =>
    let rest := splitOnNl cs
    if c = '\n' then
      [] :: rest
    else
      match rest with
      | [] => [[c]]
      | l :: ls => (c :: l) :: ls

/-- Python `content.split('\n')` (line 220). -/
def pySplitLines (s : String) : List String :=
  (splitOnNl s.toList).map String.mk

theorem leadMatch_iff (n h : List Char) :
    leadMatch n h = true ↔ h.take n.length = n := by
  induction n generalizing h with
  | nil => simp [leadMatch]
  | cons a as ih =>
    cases h with
    | nil => simp [leadMatch]
    | cons b bs =>
      simp only [leadMatch, Bool.and_eq_true, decide_eq_true_eq,
        List.length_cons, List.take_succ_cons, List.cons.injEq]
      constructor
      · rintro ⟨h1, h2⟩
        exact ⟨h1.symm, (ih bs).mp h2⟩
      · rintro ⟨h1, h2⟩
        exact ⟨h1.symm, (ih bs).mpr h2⟩

theorem hasSubList_iff (n h : List Char) :
    hasSubList n h = true ↔ ∃ i, (h.drop i).take n.length = n := by
  induction h with
  | nil =>
    simp only [hasSubList, leadMatch_iff]
    constructor
    · intro hh
      exact ⟨0, by simpa using hh⟩
    · rintro ⟨i, hi⟩
      simpa using hi
  | cons b bs ih =>
    simp only [hasSubList, Bool.or_eq_true, leadMatch_iff, ih]
    constructor
    · rintro (h0 | ⟨i, hi⟩)
      · exact ⟨0, by simpa using h0⟩
      · exact ⟨i + 1, by simpa using hi⟩
    · rintro ⟨i, hi⟩
      cases i with
      | zero => exact Or.inl (by simpa using hi)
      | succ j => exact Or.inr ⟨j, by simpa using hi⟩

/-! ### Chunker -/

/-- Fuel-driven fixed-size chunking of a character list: each step takes
(at most) `n` characters and recurses on the rest; the fuel is the list
length, so the recursion is structural. -/
def chunkCharsFuel : Nat → Nat → List Char → List (List Char)
  | 0, _, _ => []
  | _ + 1, _, [] => []
  | fuel + 1, n, c :: cs =>
    (c :: cs.take (n - 1)) :: chunkCharsFuel fuel n (cs.drop (n - 1))

/-- Fixed-size chunking of a character list into segments of length at
most `n` (always consuming at least one character per segment). -/
def chunkChars (n : Nat) (l : List Char) : List (List Char) :=
  chunkCharsFuel l.length n l

/-- Modelled from the spec: `DatabaseManager.split_text_into_chunks`
(lines 259-264) delegates the fixed-size split to
`RecursiveCharacterTextSplitter.split_text` from the external
`langchain_text_splitters` package, whose code is not part of this
repository's sources.  The spec's Chunker contract (section 4.2) is:
an ordered, finite sequence of at most `maxSize`-length segments whose
ordered concatenation equals the content. -/
def split_text_into_chunks (content : String) (maxSize : Nat) : List String :=
  (chunkChars maxSize content.toList).map String.mk

/-! ### Metadata composer -/

/-- `DatabaseManager.find_metadata_for_txt` (lines 86-90): first metadata
entry whose `txt_file` field equals the document name, with the
`txt_file` key removed; `{}` when none matches.  The subscript
`entry['txt_file']` raises a fatal `KeyError` when an entry lacks the
`txt_file` key. -/
def find_metadata_for_txt (entries : List Metadata) (txtFile : String) :
    Except String Metadata :=
  match entries with
  | [] => Except.ok []
  | e :: rest =>
    match dlookup "txt_file" e with
    | none => Except.error "KeyError: txt_file"
    | some v =>
      if v = Val.vStr txtFile then
        Except.ok (e.filter (fun kv => kv.1 ≠ "txt_file"))
      else
        find_metadata_for_txt rest txtFile

/-- The `"code"` / `"text"` classification computed inside
`DatabaseManager.load_txt_metadata` (lines 220-227): `"code"` exactly
when the first line starts with `"Filename:"`, the third line exists and
starts with `"Branch:"`, and a fenced code-block marker occurs somewhere
in the content. -/
def classify_type (content : String) : String :=
  let lines := pySplitLines content
  let has_filename := decide (0 < lines.length) && startsWithStr (lines.getD 0 "") "Filename:"
  let has_branch := decide (2 < lines.length) && startsWithStr (lines.getD 2 "") "Branch:"
  let has_code_marker := strContainsSub content "```"
  if has_filename && has_branch && has_code_marker then "code" else "text"

/-- One entry of the context-data side table: a free-form contextual note
and an optional base URL. -/
structure ContextEntry where
  context : Option String
  base_url : Option String
  deriving DecidableEq

/-- Parsed shape of `context_data.yaml`: `{files: {filename: entry}}`. -/
structure ContextData where
  files : List (String × ContextEntry)
  deriving DecidableEq

/-- Per-run state of `DatabaseManager` relevant to the pipeline: the
loaded side tables and the chunking configuration (`self.*` fields set
in `__init__`). -/
structure Manager where
  context_data : Option ContextData
  metadata_entries : List Metadata
  url_mapping : List (String × String)
  predefined_ids : List (String × String)
  separate_in_chunks : Bool
  chunk_size : Nat
  deriving DecidableEq

/-- The raw composed metadata of `DatabaseManager.load_txt_metadata`
(lines 215-230) before the id is stamped: the matching per-document
entry (whose lookup can raise, see `find_metadata_for_txt`), updated with
the URL side-table lookup (`None` when unmapped), the document name, the
classification, and the chunk number. -/
def compose_raw_metadata (m : Manager) (content docName : String)
    (chunkNumber : Nat) : Except String Metadata :=
  let url : Val :=
    match dlookup docName m.url_mapping with
    | some u => Val.vStr u
    | none => Val.vNone
  let ty := classify_type content
  match find_metadata_for_txt m.metadata_entries docName with
  | Except.error e => Except.error e
  | Except.ok md =>
    Except.ok (dictUpdate md
      [("url", url), ("doc_name", Val.vStr docName),
       ("type", Val.vStr ty), ("chunk_number", Val.vInt chunkNumber)])

/-- `DatabaseManager.load_txt_metadata` (lines 215-231): compose the raw
metadata and stamp the chunk id (line 231); a `KeyError` raised during
composition propagates.  The file's content and basename are passed in
place of the file read. -/
def load_txt_metadata (m : Manager) (content docName : String)
    (chunkNumber : Nat) : Except String Metadata :=
  match compose_raw_metadata m content docName chunkNumber with
  | Except.error e => Except.error e
  | Except.ok md => Except.ok (calculate_chunk_id m.predefined_ids md)

/-- The record handed to the index for one chunk
(`Document(page_content=chunk, id=metadata["id"], metadata=metadata)`,
line 254). -/
structure ChunkRecord where
  page_content : String
  id : Val
  metadata : Metadata
  deriving DecidableEq

/-- The per-chunk loop body of `DatabaseManager.process_txt`
(lines 244-255): for each chunk in order, compose the metadata (which can
raise, see `find_metadata_for_txt`), clean it, and build the record from
`metadata["id"]`; a missing `"id"` key would be Python's fatal
`KeyError`. -/
def buildRecords (m : Manager) (content docName : String) :
    Nat → List String → Except String (List ChunkRecord)
  | _, [] => Except.ok []
  | i, chunk :: rest =>
    match load_txt_metadata m content docName i with
    | Except.error e => Except.error e
    | Except.ok md0 =>
      let md := clean_metadata md0
      match dlookup "id" md with
      | none => Except.error "KeyError: id"
      | some idv =>
        match buildRecords m content docName (i + 1) rest with
        | Except.error e => Except.error e
        | Except.ok tail =>
          Except.ok ({ page_content := chunk, id := idv, metadata := md } :: tail)

/-- `DatabaseManager.process_txt` (lines 236-257): split the content into
chunks (or pass it through whole when `separate_in_chunks` is off) and
build one record per chunk. -/
def process_txt (m : Manager) (content docName : String) :
    Except String (List ChunkRecord) :=
  let content_chunks :=
    if m.separate_in_chunks then split_text_into_chunks content m.chunk_size
    else [content]
  buildRecords m content docName 0 content_chunks

/-! ### File loading and the orchestrator -/

/-- Result of trying to open and parse one structured file: the file can
be absent (`FileNotFoundError`), present but unparseable, or present with
a parsed value. -/
inductive FileLoad (α : Type) where
  | absent
  | malformed
  | parsed (v : α)
  deriving DecidableEq

/-- `DatabaseManager.open_context_data` (lines 207-213): an absent file
is caught and yields `None`; a parse failure propagates; a parsed falsy
value (empty file) is replaced by `{'files': {}}`. -/
def open_context_data (f : FileLoad (Option ContextData)) :
    Except String (Option ContextData) :=
  match f with
  | FileLoad.absent => Except.ok none
  | FileLoad.malformed => Except.error "YAMLError: context_data.yaml"
  | FileLoad.parsed v =>
    match v with
    | none => Except.ok (some { files := [] })
    | some cd => Except.ok (some cd)

/-- `DatabaseManager.load_metadata_entries` (lines 82-84): no handler at
all — an absent or unparseable `metadata.json` raises. -/
def load_metadata_entries (f : FileLoad (List Metadata)) :
    Except String (List Metadata) :=
  match f with
  | FileLoad.absent => Except.error "FileNotFoundError: metadata.json"
  | FileLoad.malformed => Except.error "JSONDecodeError: metadata.json"
  | FileLoad.parsed v => Except.ok v

/-- `DatabaseManager.load_url_mapping` (lines 137-142): an absent file is
caught and yields `{}`; otherwise the `documents` key is taken with `{}`
as default; a parse failure propagates. -/
def load_url_mapping (f : FileLoad (Option (List (String × String)))) :
    Except String (List (String × String)) :=
  match f with
  | FileLoad.absent => Except.ok []
  | FileLoad.malformed => Except.error "YAMLError: url_mapping.yml"
  | FileLoad.parsed documents => Except.ok (documents.getD [])

/-- `DatabaseManager.get_predefined_ids` (lines 270-275): an absent file
is caught and yields `{}`; a parse failure propagates. -/
def get_predefined_ids (f : FileLoad (List (String × String))) :
    Except String (List (String × String)) :=
  match f with
  | FileLoad.absent => Except.ok []
  | FileLoad.malformed => Except.error "YAMLError: ids.yaml"
  | FileLoad.parsed v => Except.ok v

/-- The four structured files of one topic directory. -/
structure TopicFiles where
  contextFile : FileLoad (Option ContextData)
  metadataFile : FileLoad (List Metadata)
  urlMappingFile : FileLoad (Option (List (String × String)))
  predefinedIdsFile : FileLoad (List (String × String))
  deriving DecidableEq

/-- The persisted index: `none` when the chroma directory does not exist,
otherwise the stored records of the topic's collection. -/
abbrev IndexDisk := Option (List ChunkRecord)

/-- `DatabaseManager.clear_database` (lines 92-94): remove the chroma
directory if it exists. -/
def clear_database (d : IndexDisk) : IndexDisk :=
  match d with
  | some _ => none
  | none => d

/-- Modelled from the spec: the Index Adapter is an external collaborator
(section 2); its `Chroma(persist_directory=...)` constructor (line 77) is
get-or-create — an absent collection is created empty, an existing one is
kept. -/
def connect_chroma (d : IndexDisk) : IndexDisk :=
  match d with
  | none => some []
  | some coll => some coll

/-- Modelled from the spec: the Index Adapter's write (line 171,
`db.add_documents([doc], ids=[id], ...)`) is an upsert —
insert-or-overwrite by id (sections 4.5 and 6). -/
def add_to_chroma (coll : List ChunkRecord) (r : ChunkRecord) : List ChunkRecord :=
  coll.filter (fun x => decide (x.id ≠ r.id)) ++ [r]

/-- `DatabaseManager.__init__` (lines 52-80), in source order: load the
context data (line 62), load the required metadata entries (line 63),
clear the index when `reset` is set (lines 72-74), load the URL mapping
(line 75), connect to the index (line 77), load the predefined ids
(line 79).  The second component is the index state after the call,
whether or not it raised. -/
def initManager (files : TopicFiles) (reset sep : Bool) (size : Nat)
    (disk : IndexDisk) : Except String Manager × IndexDisk :=
  match open_context_data files.contextFile with
  | Except.error e => (Except.error e, disk)
  | Except.ok cd =>
    match load_metadata_entries files.metadataFile with
    | Except.error e => (Except.error e, disk)
    | Except.ok entries =>
      let disk1 := if reset then clear_database disk else disk
      match load_url_mapping files.urlMappingFile with
      | Except.error e => (Except.error e, disk1)
      | Except.ok um =>
        let disk2 := connect_chroma disk1
        match get_predefined_ids files.predefinedIdsFile with
        | Except.error e => (Except.error e, disk2)
        | Except.ok pids =>
          (Except.ok ⟨cd, entries, um, pids, sep, size⟩, disk2)

/-- The document loop of `DatabaseManager.save_data` (lines 130-135):
process each text file in order and hand every resulting chunk record to
the index.  The second component is the collection after whatever
upserts completed — a raise inside `process_txt` aborts the loop but the
records already upserted persist. -/
def save_data_docs (m : Manager) (docs : List (String × String))
    (coll : List ChunkRecord) : Except String Unit × List ChunkRecord :=
  match docs with
  | [] => (Except.ok (), coll)
  | (docName, content) :: rest =>
    match process_txt m content docName with
    | Except.error e => (Except.error e, coll)
    | Except.ok recs => save_data_docs m rest (recs.foldl add_to_chroma coll)

/-- One ingestion run (`populate_db` lines 32-48): construct the
`DatabaseManager`, then `save_data` over the topic's documents, given as
(basename, content) pairs.  The second component is the index state after
the run, whether or not it raised. -/
def runIngestion (files : TopicFiles) (reset sep : Bool) (size : Nat)
    (docs : List (String × String)) (disk : IndexDisk) :
    Except String Unit × IndexDisk :=
  match initManager files reset sep size disk with
  | (Except.error e, d) => (Except.error e, d)
  | (Except.ok m, d) =>
    match save_data_docs m docs (d.getD []) with
    | (Except.error e, coll2) => (Except.error e, some coll2)
    | (Except.ok _, coll2) => (Except.ok (), some coll2)

/-- The ids of the records a run derives from the given documents: the
ids of the chunk records `process_txt` produces, in order. -/
def derived_ids (m : Manager) (docs : List (String × String)) : List Val :=
  match docs with
  | [] => []
  | (docName, content) :: rest =>
    (match process_txt m content docName with
     | Except.ok recs => recs.map (fun r => r.id)
     | Except.error _ => []) ++ derived_ids m rest

/-- The id set of a stored collection. -/
def collIds (coll : List ChunkRecord) : List Val :=
  coll.map (fun r => r.id)

/-- `DatabaseManager.unique` (lines 144-155): stamp the candidate's id,
fetch the collection's get-response and read its `"ids.yaml"` key — a
missing key is Python's fatal `KeyError` — then report whether the
candidate id is absent from that set. -/
def unique (m : Manager) (resp : List (String × List Val)) (md : Metadata) :
    Except String Bool :=
  let md2 := calculate_chunk_id m.predefined_ids md
  match dlookup "ids.yaml" resp with
  | none => Except.error "KeyError: ids.yaml"
  | some existing_ids =>
    match dlookup "id" md2 with
    | none => Except.error "KeyError: id"
    | some idv => Except.ok (decide (idv ∉ existing_ids))

/-! ### Helper lemmas about the pipeline -/

theorem chunkCharsFuel_join (fuel : Nat) :
    ∀ (n : Nat) (l : List Char), l.length ≤ fuel →
      (chunkCharsFuel fuel n l).flatten = l := by
  induction fuel with
  | zero =>
    intro n l h
    have : l = [] := List.eq_nil_of_length_eq_zero (Nat.le_zero.mp h)
    subst this
    rfl
  | succ f ih =>
    intro n l h
    cases l with
    | nil => rfl
    | cons c cs =>
      have hlen : (cs.drop (n - 1)).length ≤ f := by
        have h1 : cs.length ≤ f := by
          simpa [Nat.succ_le_succ_iff] using h
        calc (cs.drop (n - 1)).length ≤ cs.length := by
              simp [List.length_drop]
          _ ≤ f := h1
      simp only [chunkCharsFuel, List.flatten_cons, List.cons_append]
      rw [ih n (cs.drop (n - 1)) hlen]
      simp [List.take_append_drop]

theorem mk_toList (s : String) : String.mk s.toList = s := rfl

theorem foldl_append_mk (L : List (List Char)) :
    ∀ acc : List Char,
      List.foldl (fun r s => r ++ s) (String.mk acc) (L.map String.mk) =
        String.mk (acc ++ L.flatten) := by
  induction L with
  | nil => intro acc; simp
  | cons a t ih =>
    intro acc
    have happ : String.mk acc ++ String.mk a = String.mk (acc ++ a) := rfl
    simp only [List.map_cons, List.foldl_cons, happ, ih (acc ++ a),
      List.flatten_cons, List.append_assoc]

theorem join_map_mk (L : List (List Char)) :
    String.join (L.map String.mk) = String.mk L.flatten := by
  have h0 : ("" : String) = String.mk [] := rfl
  simp only [String.join, h0, foldl_append_mk L [], List.nil_append]

theorem id_after_clean (pids : List (String × String)) (md0 : Metadata) :
    dlookup "id" (clean_metadata (calculate_chunk_id pids md0)) =
      some (Val.vStr (chunk_id_str pids md0)) :=
  dlookup_clean_of_ne_none _ _ _ (fun hc => Val.noConfusion hc)
    (dlookup_calculate_chunk_id _ _)

theorem find_metadata_ok (entries : List Metadata) (txtFile : String)
    (hwf : ∀ e ∈ entries, (dlookup "txt_file" e).isSome = true) :
    ∃ md, find_metadata_for_txt entries txtFile = Except.ok md := by
  induction entries with
  | nil => exact ⟨[], rfl⟩
  | cons e rest ih =>
    obtain ⟨v, hv⟩ :=
      Option.isSome_iff_exists.mp (hwf e (List.mem_cons_self e rest))
    simp only [find_metadata_for_txt, hv]
    by_cases hc : v = Val.vStr txtFile
    · rw [if_pos hc]
      exact ⟨_, rfl⟩
    · rw [if_neg hc]
      exact ih (fun e2 h2 => hwf e2 (List.mem_cons_of_mem e h2))

theorem load_txt_metadata_ok (m : Manager) (content docName : String) (i : Nat)
    (hwf : ∀ e ∈ m.metadata_entries, (dlookup "txt_file" e).isSome = true) :
    ∃ md0, compose_raw_metadata m content docName i = Except.ok md0 ∧
      load_txt_metadata m content docName i =
        Except.ok (calculate_chunk_id m.predefined_ids md0) := by
  obtain ⟨md, hmd⟩ := find_metadata_ok m.metadata_entries docName hwf
  unfold load_txt_metadata compose_raw_metadata
  rw [hmd]
  exact ⟨_, rfl, rfl⟩

theorem buildRecords_spec (m : Manager) (content docName : String)
    (hwf : ∀ e ∈ m.metadata_entries, (dlookup "txt_file" e).isSome = true) :
    ∀ (chunks : List String) (i : Nat),
      ∃ rs, buildRecords m content docName i chunks = Except.ok rs ∧
        rs.map (fun r => r.page_content) = chunks ∧
        ∀ r ∈ rs, ∃ j raw,
          load_txt_metadata m content docName j = Except.ok raw ∧
          r.metadata = clean_metadata raw := by
  intro chunks
  induction chunks with
  | nil =>
    intro i
    exact ⟨[], rfl, rfl, by simp⟩
  | cons c cs ih =>
    intro i
    obtain ⟨md0, hcomp, hload⟩ := load_txt_metadata_ok m content docName i hwf
    obtain ⟨tail, htail, hpc, hmd⟩ := ih (i + 1)
    refine ⟨{ page_content := c,
              id := Val.vStr (chunk_id_str m.predefined_ids md0),
              metadata := clean_metadata (calculate_chunk_id m.predefined_ids md0) }
              :: tail,
            ?_, ?_, ?_⟩
    · simp only [buildRecords, hload, id_after_clean, htail]
    · simp [hpc]
    · intro r hr
      rcases List.mem_cons.mp hr with hh | ht
      · exact ⟨i, calculate_chunk_id m.predefined_ids md0, hload, by rw [hh]⟩
      · exact hmd r ht

theorem process_txt_spec (m : Manager) (content docName : String)
    (hwf : ∀ e ∈ m.metadata_entries, (dlookup "txt_file" e).isSome = true) :
    ∃ rs, process_txt m content docName = Except.ok rs ∧
      rs.map (fun r => r.page_content) =
        (if m.separate_in_chunks then split_text_into_chunks content m.chunk_size
         else [content]) ∧
      ∀ r ∈ rs, ∃ j raw,
        load_txt_metadata m content docName j = Except.ok raw ∧
        r.metadata = clean_metadata raw :=
  buildRecords_spec m content docName hwf
    (if m.separate_in_chunks then split_text_into_chunks content m.chunk_size
     else [content]) 0

theorem buildRecords_ok_inv (m : Manager) (content docName : String) :
    ∀ (chunks : List String) (i : Nat) (rs : List ChunkRecord),
      buildRecords m content docName i chunks = Except.ok rs →
      rs.map (fun r => r.page_content) = chunks ∧
      ∀ r ∈ rs, ∃ j raw,
        load_txt_metadata m content docName j = Except.ok raw ∧
        r.metadata = clean_metadata raw := by
  intro chunks
  induction chunks with
  | nil =>
    intro i rs h
    simp only [buildRecords] at h
    have hrs : rs = [] := (Except.ok.inj h).symm
    subst hrs
    exact ⟨rfl, by simp⟩
  | cons c cs ih =>
    intro i rs h
    simp only [buildRecords] at h
    cases hload : load_txt_metadata m content docName i with
    | error e => rw [hload] at h; simp at h
    | ok md0 =>
      rw [hload] at h
      dsimp only at h
      cases hid : dlookup "id" (clean_metadata md0) with
      | none => rw [hid] at h; simp at h
      | some idv =>
        rw [hid] at h
        cases hbuild : buildRecords m content docName (i + 1) cs with
        | error e => rw [hbuild] at h; simp at h
        | ok tail =>
          rw [hbuild] at h
          have hrs : rs =
              { page_content := c, id := idv, metadata := clean_metadata md0 }
                :: tail := (Except.ok.inj h).symm
          subst hrs
          obtain ⟨hpc, hmem⟩ := ih (i + 1) tail hbuild
          refine ⟨by simp [hpc], ?_⟩
          intro r hr
          rcases List.mem_cons.mp hr with hh | ht
          · exact ⟨i, md0, hload, by rw [hh]⟩
          · exact hmem r ht

theorem process_txt_ok_inv (m : Manager) (content docName : String)
    (rs : List ChunkRecord) (h : process_txt m content docName = Except.ok rs) :
    rs.map (fun r => r.page_content) =
      (if m.separate_in_chunks then split_text_into_chunks content m.chunk_size
       else [content]) ∧
    ∀ r ∈ rs, ∃ j raw,
      load_txt_metadata m content docName j = Except.ok raw ∧
      r.metadata = clean_metadata raw :=
  buildRecords_ok_inv m content docName
    (if m.separate_in_chunks then split_text_into_chunks content m.chunk_size
     else [content]) 0 rs h

theorem mem_collIds_add (coll : List ChunkRecord) (r : ChunkRecord) (i : Val) :
    i ∈ collIds (add_to_chroma coll r) ↔ i ∈ collIds coll ∨ i = r.id := by
  simp only [collIds, add_to_chroma, List.map_append, List.mem_append,
    List.mem_map, List.mem_filter, decide_eq_true_eq, List.map_cons,
    List.map_nil, List.mem_singleton]
  constructor
  · rintro (⟨x, ⟨hx, _⟩, hxi⟩ | hi)
    · exact Or.inl ⟨x, hx, hxi⟩
    · exact Or.inr hi
  · rintro (⟨x, hx, hxi⟩ | hi)
    · by_cases hxr : x.id = r.id
      · exact Or.inr (by rw [← hxi, hxr])
      · exact Or.inl ⟨x, ⟨hx, hxr⟩, hxi⟩
    · exact Or.inr hi

theorem mem_collIds_foldl (recs : List ChunkRecord) :
    ∀ (coll : List ChunkRecord) (i : Val),
      i ∈ collIds (recs.foldl add_to_chroma coll) ↔
        i ∈ collIds coll ∨ i ∈ recs.map (fun r => r.id) := by
  induction recs with
  | nil => intro coll i; simp
  | cons r rest ih =>
    intro coll i
    simp only [List.foldl_cons, ih (add_to_chroma coll r) i, mem_collIds_add,
      List.map_cons, List.mem_cons]
    tauto

theorem save_data_docs_spec (m : Manager)
    (hwf : ∀ e ∈ m.metadata_entries, (dlookup "txt_file" e).isSome = true) :
    ∀ (docs : List (String × String)) (coll : List ChunkRecord),
      ∃ coll2, save_data_docs m docs coll = (Except.ok (), coll2) ∧
        ∀ i, i ∈ collIds coll2 ↔ i ∈ collIds coll ∨ i ∈ derived_ids m docs := by
  intro docs
  induction docs with
  | nil =>
    intro coll
    exact ⟨coll, rfl, by simp [derived_ids]⟩
  | cons dc rest ih =>
    intro coll
    obtain ⟨docName, content⟩ := dc
    obtain ⟨rs, hrs, _, _⟩ := process_txt_spec m content docName hwf
    obtain ⟨coll2, hsave, hids⟩ := ih (rs.foldl add_to_chroma coll)
    refine ⟨coll2, ?_, ?_⟩
    · simp only [save_data_docs, hrs, hsave]
    · intro i
      simp only [hids i, mem_collIds_foldl rs coll i, derived_ids, hrs,
        List.mem_append]
      tauto

theorem initManager_reset_disk (files : TopicFiles) (sep : Bool) (size : Nat)
    (disk : IndexDisk) (m : Manager)
    (h : (initManager files true sep size disk).1 = Except.ok m) :
    (initManager files true sep size disk).2 = some [] := by
  unfold initManager at h ⊢
  cases h1 : open_context_data files.contextFile with
  | error e => rw [h1] at h; simp at h
  | ok cd =>
    cases h2 : load_metadata_entries files.metadataFile with
    | error e => rw [h1, h2] at h; simp at h
    | ok entries =>
      cases h3 : load_url_mapping files.urlMappingFile with
      | error e => rw [h1, h2, h3] at h; simp at h
      | ok um =>
        cases h4 : get_predefined_ids files.predefinedIdsFile with
        | error e => rw [h1, h2, h3, h4] at h; simp at h
        | ok pids => cases disk <;> rfl

theorem initManager_metadata_absent (files : TopicFiles) (reset sep : Bool)
    (size : Nat) (disk : IndexDisk) (h : files.metadataFile = FileLoad.absent) :
    ∃ e, initManager files reset sep size disk = (Except.error e, disk) := by
  unfold initManager
  cases h1 : open_context_data files.contextFile with
  | error e => exact ⟨e, rfl⟩
  | ok cd =>
    rw [h]
    exact ⟨"FileNotFoundError: metadata.json", rfl⟩

theorem mem_clean_metadata (md : Metadata) (kv : String × Val) :
    kv ∈ clean_metadata md ↔ kv ∈ md ∧ kv.2 ≠ Val.vNone := by
  simp [clean_metadata, List.mem_filter]

theorem if_code_eq (b : Bool) :
    (if b = true then "code" else "text") = "code" ↔ b = true := by
  cases b <;> simp

/-! ### Claim theorems -/

/-- C1, counterexample: contrary to the claim, in the fallback tier the
identifier resolver renders an absent (`None`) field as the literal text
`"None"`, and with all three of `doc_name`, `url`, `chunk_number` absent
it silently returns the string `"None|None|None"`, which is not the
all-empty composite `"||"`. -/
theorem calculate_chunk_id_none_rendering :
    dlookup "id" (calculate_chunk_id [] []) = some (Val.vStr "None|None|None") ∧
    "None|None|None" ≠ "||" :=
  ⟨rfl, by decide⟩

/-- C1, amended: in the fallback tier (neither `sourceName` nor `url` is a
key of `predefinedIds`) the returned identifier is the pipe-delimited
composite of `chunkNumber`, `url` and `sourceName` in that order, where an
empty-string field renders as the empty string but a `None` field renders
as the text `"None"`; in particular with all three components absent the
resolver silently returns `"None|None|None"`. -/
theorem calculate_chunk_id_fallback_format (pids : List (String × String))
    (md : Metadata)
    (h1 : pidLookup pids (dictGet md "doc_name") = none)
    (h2 : pidLookup pids (dictGet md "url") = none) :
    dlookup "id" (calculate_chunk_id pids md) =
      some (Val.vStr ((dictGet md "chunk_number").pyStr ++ "|" ++
        (dictGet md "url").pyStr ++ "|" ++ (dictGet md "doc_name").pyStr)) ∧
    Val.pyStr (Val.vStr "") = "" ∧ Val.pyStr Val.vNone = "None" := by
  refine ⟨?_, rfl, rfl⟩
  rw [dlookup_calculate_chunk_id]
  unfold chunk_id_str
  rw [h1, h2]

/-- C1, witness: the amended fallback-format theorem applied to a concrete
metadata dict with only a URL. -/
theorem calculate_chunk_id_fallback_format_witness :
    dlookup "id" (calculate_chunk_id [] [("url", Val.vStr "http://x")]) =
      some (Val.vStr "None|http://x|None") ∧
    Val.pyStr (Val.vStr "") = "" ∧ Val.pyStr Val.vNone = "None" :=
  calculate_chunk_id_fallback_format [] [("url", Val.vStr "http://x")] rfl rfl

/-- C2: for every content string and positive chunk size, concatenating
the chunks produced by the fixed-size Chunker in order yields the
original content exactly. -/
theorem split_chunks_concat (content : String) (maxSize : Nat)
    (h : 0 < maxSize) :
    String.join (split_text_into_chunks content maxSize) = content := by
  unfold split_text_into_chunks chunkChars
  rw [join_map_mk,
    chunkCharsFuel_join content.toList.length maxSize content.toList (Nat.le_refl _)]
  exact mk_toList content

/-- C2, witness: chunk coverage at a concrete content and size. -/
theorem split_chunks_concat_witness :
    0 < 3 ∧ String.join (split_text_into_chunks "hello" 3) = "hello" :=
  ⟨by decide, split_chunks_concat "hello" 3 (by decide)⟩

/-- C3, counterexample: contrary to the claim, loading an absent
context-data file yields `None` (an absent value), not the empty
structure `{files: {}}`. -/
theorem open_context_data_absent_not_empty :
    open_context_data (FileLoad.absent : FileLoad (Option ContextData)) =
      Except.ok none ∧
    (Except.ok (none : Option ContextData) : Except String (Option ContextData)) ≠
      Except.ok (some { files := [] }) := by
  refine ⟨rfl, ?_⟩
  intro hc
  exact Option.noConfusion (Except.ok.inj hc)

/-- C3, amended: an absent predefined-ids or url-mapping file loads to
that table's empty default and an absent context-data file loads to
`None` (an absent value, not the empty structure), in each case without
failing the load; a present side-table file that cannot be parsed is a
fatal error. -/
theorem side_table_absent_defaults :
    open_context_data (FileLoad.absent : FileLoad (Option ContextData)) =
      Except.ok none ∧
    load_url_mapping FileLoad.absent = Except.ok [] ∧
    get_predefined_ids FileLoad.absent = Except.ok [] ∧
    open_context_data FileLoad.malformed =
      Except.error "YAMLError: context_data.yaml" ∧
    load_url_mapping FileLoad.malformed =
      Except.error "YAMLError: url_mapping.yml" ∧
    get_predefined_ids FileLoad.malformed = Except.error "YAMLError: ids.yaml" :=
  ⟨rfl, rfl, rfl, rfl, rfl, rfl⟩

/-- C4: the dedup check raises on every well-formed collection response —
it reads the response key `"ids.yaml"` (the predefined-ids file name
pasted where the response key `"ids"` belongs), which a well-formed
response does not contain, so the lookup is a fatal `KeyError` instead of
the claimed membership verdict. -/
theorem unique_keyerror_on_wellformed_response :
    unique ⟨none, [], [], [], true, 8192⟩ [("ids", [Val.vStr "0|u|a.txt"])] [] =
      Except.error "KeyError: ids.yaml" ∧
    dlookup "ids" [("ids", [Val.vStr "0|u|a.txt"])] = some [Val.vStr "0|u|a.txt"] ∧
    dlookup "ids.yaml" [("ids", [Val.vStr "0|u|a.txt"])] = none :=
  ⟨rfl, rfl, rfl⟩

/-- C5: the identifier resolver applies override precedence with first
match winning — a predefined id pinned to `doc_name` wins, else one
pinned to `url`, else the composite fallback — and the two concrete
scenarios from the spec resolve to `"PINNED"` and
`"2|http://x|doc.txt"` respectively. -/
theorem calculate_chunk_id_precedence (pids : List (String × String))
    (md : Metadata) :
    (∀ cid, pidLookup pids (dictGet md "doc_name") = some cid →
      dlookup "id" (calculate_chunk_id pids md) = some (Val.vStr cid)) ∧
    (pidLookup pids (dictGet md "doc_name") = none →
      ∀ cid, pidLookup pids (dictGet md "url") = some cid →
        dlookup "id" (calculate_chunk_id pids md) = some (Val.vStr cid)) ∧
    (pidLookup pids (dictGet md "doc_name") = none →
      pidLookup pids (dictGet md "url") = none →
      dlookup "id" (calculate_chunk_id pids md) =
        some (Val.vStr ((dictGet md "chunk_number").pyStr ++ "|" ++
          (dictGet md "url").pyStr ++ "|" ++ (dictGet md "doc_name").pyStr))) ∧
    dlookup "id" (calculate_chunk_id [("doc.txt", "PINNED")]
      [("doc_name", Val.vStr "doc.txt"), ("url", Val.vStr "http://x"),
       ("chunk_number", Val.vInt 0)]) = some (Val.vStr "PINNED") ∧
    dlookup "id" (calculate_chunk_id []
      [("doc_name", Val.vStr "doc.txt"), ("url", Val.vStr "http://x"),
       ("chunk_number", Val.vInt 2)]) = some (Val.vStr "2|http://x|doc.txt") := by
  refine ⟨?_, ?_, ?_, rfl, rfl⟩
  · intro cid hcid
    rw [dlookup_calculate_chunk_id]
    unfold chunk_id_str
    rw [hcid]
  · intro hnone cid hcid
    rw [dlookup_calculate_chunk_id]
    unfold chunk_id_str
    rw [hnone, hcid]
  · intro hn1 hn2
    rw [dlookup_calculate_chunk_id]
    unfold chunk_id_str
    rw [hn1, hn2]

/-- C5, witness: the doc-name tier applied at a concrete pinned id. -/
theorem calculate_chunk_id_precedence_witness :
    dlookup "id" (calculate_chunk_id [("a.txt", "X")]
      [("doc_name", Val.vStr "a.txt")]) = some (Val.vStr "X") :=
  (calculate_chunk_id_precedence [("a.txt", "X")]
    [("doc_name", Val.vStr "a.txt")]).1 "X" rfl

/-- C6: when the required metadata file (the primary document source) is
missing, the run fails with a raised error and the index state is
unchanged — no upsert happens and no existing index state is deleted or
modified before the fatal error. -/
theorem missing_metadata_fatal_no_mutation (files : TopicFiles)
    (reset sep : Bool) (size : Nat) (docs : List (String × String))
    (disk : IndexDisk) (h : files.metadataFile = FileLoad.absent) :
    (∃ e, (runIngestion files reset sep size docs disk).1 = Except.error e) ∧
    (runIngestion files reset sep size docs disk).2 = disk := by
  obtain ⟨e, he⟩ := initManager_metadata_absent files reset sep size disk h
  unfold runIngestion
  rw [he]
  exact ⟨⟨e, rfl⟩, rfl⟩

/-- C6, witness: a concrete run over an absent metadata file leaves a
concrete non-empty index untouched and errors. -/
theorem missing_metadata_fatal_no_mutation_witness :
    (∃ e, (runIngestion
      ⟨FileLoad.parsed none, FileLoad.absent, FileLoad.parsed none,
       FileLoad.parsed []⟩ true true 8192 [("a.txt", "hello")]
      (some [⟨"old", Val.vStr "old-id", []⟩])).1 = Except.error e) ∧
    (runIngestion
      ⟨FileLoad.parsed none, FileLoad.absent, FileLoad.parsed none,
       FileLoad.parsed []⟩ true true 8192 [("a.txt", "hello")]
      (some [⟨"old", Val.vStr "old-id", []⟩])).2 =
      some [⟨"old", Val.vStr "old-id", []⟩] :=
  missing_metadata_fatal_no_mutation
    ⟨FileLoad.parsed none, FileLoad.absent, FileLoad.parsed none,
     FileLoad.parsed []⟩ true true 8192 [("a.txt", "hello")]
    (some [⟨"old", Val.vStr "old-id", []⟩]) rfl

/-- C7, counterexample: contrary to the claim, a reset run over one
document need not yield the ids derived from that document — a metadata
entry lacking the `txt_file` key makes `find_metadata_for_txt` raise
`KeyError` mid-ingest, so the run aborts with an error and the collection
stays empty, without the document's fallback id `"0|None|a.txt"`. -/
theorem reset_ingest_crash :
    runIngestion
      ⟨FileLoad.absent, FileLoad.parsed [[("title", Val.vStr "T")]],
       FileLoad.parsed none, FileLoad.parsed []⟩ true false 8192
      [("a.txt", "hi")] (some [⟨"old", Val.vStr "old-id", []⟩]) =
      (Except.error "KeyError: txt_file", some []) ∧
    Val.vStr "0|None|a.txt" ∉ collIds [] ∧
    (Except.error "KeyError: txt_file" : Except String Unit) ≠ Except.ok () :=
  ⟨rfl, by decide, fun hc => Except.noConfusion hc⟩

/-- C7, amended: a run with `reset = True` clears the topic's collection
and recreates it empty before any upsert — the index right after
initialisation is the empty collection — and, provided every metadata
entry carries the `txt_file` key (an entry without it raises `KeyError`
mid-ingest and aborts the run), ingesting the given documents completes
and the collection's id set is exactly the set of ids derived from those
documents; no pre-reset id survives unless re-derived. -/
theorem reset_ingest_id_set (files : TopicFiles) (sep : Bool) (size : Nat)
    (docs : List (String × String)) (disk : IndexDisk) (m : Manager)
    (h : (initManager files true sep size disk).1 = Except.ok m)
    (hwf : ∀ e ∈ m.metadata_entries, (dlookup "txt_file" e).isSome = true) :
    (initManager files true sep size disk).2 = some [] ∧
    ∃ coll, runIngestion files true sep size docs disk = (Except.ok (), some coll) ∧
      ∀ i, i ∈ collIds coll ↔ i ∈ derived_ids m docs := by
  have hd := initManager_reset_disk files sep size disk m h
  have hpair : initManager files true sep size disk = (Except.ok m, some []) := by
    rw [← Prod.mk.eta (p := initManager files true sep size disk), h, hd]
  refine ⟨hd, ?_⟩
  obtain ⟨coll2, hsave, hids⟩ := save_data_docs_spec m hwf docs []
  refine ⟨coll2, ?_, ?_⟩
  · unfold runIngestion
    rw [hpair]
    dsimp only [Option.getD]
    rw [hsave]
  · intro i
    simpa [collIds] using hids i

/-- C7, witness: a concrete reset run over one document, with well-formed
(empty) metadata entries, replaces a pre-existing record set by exactly
the derived ids. -/
theorem reset_ingest_id_set_witness :
    (initManager
      ⟨FileLoad.absent, FileLoad.parsed [], FileLoad.parsed none,
       FileLoad.parsed []⟩ true false 8192
      (some [⟨"old", Val.vStr "old-id", []⟩])).2 = some [] ∧
    ∃ coll, runIngestion
      ⟨FileLoad.absent, FileLoad.parsed [], FileLoad.parsed none,
       FileLoad.parsed []⟩ true false 8192 [("a.txt", "hi")]
      (some [⟨"old", Val.vStr "old-id", []⟩]) = (Except.ok (), some coll) ∧
      ∀ i, i ∈ collIds coll ↔
        i ∈ derived_ids ⟨none, [], [], [], false, 8192⟩ [("a.txt", "hi")] :=
  reset_ingest_id_set
    ⟨FileLoad.absent, FileLoad.parsed [], FileLoad.parsed none,
     FileLoad.parsed []⟩ false 8192 [("a.txt", "hi")]
    (some [⟨"old", Val.vStr "old-id", []⟩]) ⟨none, [], [], [], false, 8192⟩ rfl
    (by decide)

/-- C8: every chunk record produced by `process_txt` carries metadata
with no `None`-valued binding; each record's metadata is the raw composed
metadata of its chunk position with exactly the `None`-valued bindings
dropped and every non-`None` binding kept unchanged. -/
theorem process_txt_metadata_no_none (m : Manager) (content docName : String)
    (rs : List ChunkRecord) (h : process_txt m content docName = Except.ok rs) :
    ∀ r ∈ rs, (∀ kv ∈ r.metadata, kv.2 ≠ Val.vNone) ∧
      ∃ j raw, load_txt_metadata m content docName j = Except.ok raw ∧
        (∀ kv ∈ r.metadata, kv ∈ raw) ∧
        ∀ kv ∈ raw, (kv ∈ r.metadata ↔ kv.2 ≠ Val.vNone) := by
  intro r hr
  obtain ⟨_, hmd⟩ := process_txt_ok_inv m content docName rs h
  obtain ⟨j, raw, hraw, hj⟩ := hmd r hr
  refine ⟨?_, j, raw, hraw, ?_, ?_⟩
  · intro kv hkv
    rw [hj] at hkv
    exact ((mem_clean_metadata _ kv).mp hkv).2
  · intro kv hkv
    rw [hj] at hkv
    exact ((mem_clean_metadata _ kv).mp hkv).1
  · intro kv hkv
    rw [hj]
    constructor
    · intro hin
      exact ((mem_clean_metadata _ kv).mp hin).2
    · intro hne
      exact (mem_clean_metadata _ kv).mpr ⟨hkv, hne⟩

/-- C8, witness: the no-`None` guarantee applied to the concrete record
of a one-chunk document whose `url` field was `None` and got dropped. -/
theorem process_txt_metadata_no_none_witness :
    ("type", Val.vStr "text").2 ≠ Val.vNone := by
  have happ := process_txt_metadata_no_none ⟨none, [], [], [], false, 8192⟩
    "hi" "a.txt"
    [⟨"hi", Val.vStr "0|None|a.txt",
      [("doc_name", Val.vStr "a.txt"), ("type", Val.vStr "text"),
       ("chunk_number", Val.vInt 0), ("id", Val.vStr "0|None|a.txt")]⟩] rfl
  have h1 := happ ⟨"hi", Val.vStr "0|None|a.txt",
      [("doc_name", Val.vStr "a.txt"), ("type", Val.vStr "text"),
       ("chunk_number", Val.vInt 0), ("id", Val.vStr "0|None|a.txt")]⟩
    (List.mem_singleton.mpr rfl)
  exact h1.1 ("type", Val.vStr "text") (by decide)

/-- C9: a document body is classified `"code"` exactly when its first
line starts with the filename marker, a third line exists and starts with
the branch marker, and a fenced code-block marker occurs somewhere in the
body; otherwise the classification is `"text"`; and the classification
never changes how the body is chunked — the chunk contents of every
processed record list depend only on the content and the chunking
configuration. -/
theorem classify_code_iff_claim (content : String) :
    (classify_type content = "code" ↔
      (((pySplitLines content).getD 0 "").toList.take 9 = "Filename:".toList ∧
       2 < (pySplitLines content).length ∧
       ((pySplitLines content).getD 2 "").toList.take 7 = "Branch:".toList ∧
       ∃ i, (content.toList.drop i).take 3 = "```".toList)) ∧
    (classify_type content = "code" ∨ classify_type content = "text") ∧
    (∀ (m : Manager) (docName : String) (rs : List ChunkRecord),
      process_txt m content docName = Except.ok rs →
      rs.map (fun r => r.page_content) =
        (if m.separate_in_chunks then split_text_into_chunks content m.chunk_size
         else [content])) := by
  refine ⟨?_, ?_, ?_⟩
  · simp only [classify_type]
    rw [if_code_eq]
    simp only [Bool.and_eq_true, decide_eq_true_eq]
    unfold startsWithStr strContainsSub
    rw [leadMatch_iff, leadMatch_iff, hasSubList_iff]
    have h9 : ("Filename:".toList).length = 9 := rfl
    have h7 : ("Branch:".toList).length = 7 := rfl
    have h3 : ("```".toList).length = 3 := rfl
    rw [h9, h7, h3]
    constructor
    · rintro ⟨⟨⟨h0, hf⟩, h2, hb⟩, hm⟩
      exact ⟨hf, h2, hb, hm⟩
    · rintro ⟨hf, h2, hb, hm⟩
      exact ⟨⟨⟨Nat.lt_trans (by decide) h2, hf⟩, h2, hb⟩, hm⟩
  · simp only [classify_type]
    split
    · exact Or.inl rfl
    · exact Or.inr rfl
  · intro m docName rs h
    exact (process_txt_ok_inv m content docName rs h).1

/-- C9, witness: the classification criterion applied to a concrete body
satisfying all three markers. -/
theorem classify_code_iff_claim_witness :
    classify_type "Filename: a\nb\nBranch: m\n```" = "code" :=
  (classify_code_iff_claim "Filename: a\nb\nBranch: m\n```").1.mpr
    ⟨rfl, by decide, rfl, ⟨24, rfl⟩⟩

/-- C10, counterexample: contrary to the claim, per-chunk record
construction does not succeed for every document — a metadata entry
lacking the `txt_file` key makes `entry['txt_file']` inside
`find_metadata_for_txt` raise a fatal `KeyError` during metadata
composition, so `process_txt` fails instead of returning records. -/
theorem process_txt_keyerror :
    process_txt ⟨none, [[("title", Val.vStr "T")]], [], [], false, 8192⟩
      "hi" "a.txt" = Except.error "KeyError: txt_file" ∧
    find_metadata_for_txt [[("title", Val.vStr "T")]] "a.txt" =
      Except.error "KeyError: txt_file" :=
  ⟨rfl, rfl⟩

/-- C10, amended: provided every metadata entry carries the `txt_file`
key (an entry without it raises `KeyError` inside
`find_metadata_for_txt` before any record is built), per-chunk record
construction never fails: `process_txt` returns a record list (the
`metadata is None` branch is unreachable since cleaning returns a dict),
and for every chunk position metadata composition succeeds and the
cleaned metadata still contains the `"id"` key bound to the non-`None`
string the identifier resolver assigned, so `metadata["id"]`
succeeds. -/
theorem process_txt_total (m : Manager) (content docName : String)
    (hwf : ∀ e ∈ m.metadata_entries, (dlookup "txt_file" e).isSome = true) :
    (∃ rs, process_txt m content docName = Except.ok rs) ∧
    ∀ i, ∃ md0, compose_raw_metadata m content docName i = Except.ok md0 ∧
      load_txt_metadata m content docName i =
        Except.ok (calculate_chunk_id m.predefined_ids md0) ∧
      dlookup "id" (clean_metadata (calculate_chunk_id m.predefined_ids md0)) =
        some (Val.vStr (chunk_id_str m.predefined_ids md0)) := by
  refine ⟨?_, ?_⟩
  · obtain ⟨rs, hok, _, _⟩ := process_txt_spec m content docName hwf
    exact ⟨rs, hok⟩
  · intro i
    obtain ⟨md0, hcomp, hload⟩ := load_txt_metadata_ok m content docName i hwf
    exact ⟨md0, hcomp, hload, id_after_clean m.predefined_ids md0⟩

/-- C10, witness: record construction succeeding on a concrete document
whose metadata entry carries the `txt_file` key. -/
theorem process_txt_total_witness :
    ∃ rs, process_txt
      ⟨none, [[("txt_file", Val.vStr "a.txt"), ("title", Val.vStr "T")]],
       [], [], false, 8192⟩ "hi" "a.txt" = Except.ok rs :=
  (process_txt_total
    ⟨none, [[("txt_file", Val.vStr "a.txt"), ("title", Val.vStr "T")]],
     [], [], false, 8192⟩ "hi" "a.txt" (by decide)).1

end VotingAidDB
